import Mathlib

/-!
Shallow embedding of the TLB subsystem of rv32emu-wasm (`src/tlb.c`,
`src/tlb.h`).

Machine integers (`uint32_t`) are modelled as `Nat` with explicit
`% 2 ^ 32` where the C code can overflow (the `size` counters); virtual
addresses and the bitwise address arithmetic stay below `2 ^ 32` by
hypothesis where that matters.  The intrusive doubly-linked `list_head`
becomes a `List` in insertion order: the list head is the FIFO head
(oldest entry, `list_first_entry`), and `list_add_tail` appends at the
end.  The `assert` calls of the C code are modelled by returning `none`
from the corresponding operation (an `Option` result), so an assertion
failure is observable as `none`.
-/

/-- Modelled from the spec: `RV_PG_SHIFT` comes from `riscv.h`, which is not
part of the sources; the spec fixes the level-0 page offset to the low 12
bits, so the shift is 12. -/
def RV_PG_SHIFT : Nat := 12

/-- Modelled from the spec: `MASK` comes from `utils.h`, which is not part of
the sources; `MASK n` is the n-bit all-ones mask `(1 << n) - 1`. -/
def MASK (n : Nat) : Nat := 2 ^ n - 1

/-- Modelled from the spec: `PTE_U` comes from `riscv.h`, which is not part
of the sources; it is the user-accessible permission bit of a RISC-V page
table entry, bit 4. -/
def PTE_U : Nat := 16

/-- `UINT32_MAX`, the value of `(uint32_t) -1`. -/
def UINT32_MAX : Nat := 2 ^ 32 - 1

/-- `tlb_type_t` from `tlb.h`. -/
inductive tlb_type_t where
  | iTLB
  | dTLB
deriving DecidableEq, Repr

/-- `tlb_entry_t` from `tlb.h` (without the intrusive `list` link, which is
represented by membership in the containing list). -/
structure tlb_entry_t where
  vpn : Nat
  ppn : Nat
  access : Nat
  level : Int
deriving DecidableEq, Repr

/-- One translation set of `tlb_t`: the `*tlb_size`, `*tlb_capacity` and
`*tlb_list` triple that every function in `tlb.c` selects by `tlb_type_t`.
The list is in insertion order, head = oldest. -/
structure tlb_set_t where
  entries : List tlb_entry_t
  size : Nat
  capacity : Nat
deriving DecidableEq, Repr

/-- `tlb_t` from `tlb.h`: an instruction set and a data set. -/
structure tlb_t where
  itlb : tlb_set_t
  dtlb : tlb_set_t
deriving DecidableEq, Repr

/-- The `type == iTLB ? &tlb->itlb_... : &tlb->dtlb_...` selection used by
every function in `tlb.c`. -/
def tlb_t.set (tlb : tlb_t) (type : tlb_type_t) : tlb_set_t :=
  match type with
  | .iTLB => tlb.itlb
  | .dTLB => tlb.dtlb

/-- Write back the selected set. -/
def tlb_t.withSet (tlb : tlb_t) (type : tlb_type_t) (s : tlb_set_t) : tlb_t :=
  match type with
  | .iTLB => { tlb with itlb := s }
  | .dTLB => { tlb with dtlb := s }

/-- `get_vpn_by_vaddr_n_level(vaddr, level)` from `tlb.c`:
`level == 1 ? (vaddr & ~MASK(RV_PG_SHIFT + 10)) >> (RV_PG_SHIFT + 10)
            : (vaddr & ~MASK(RV_PG_SHIFT)) >> (RV_PG_SHIFT)`.
On `uint32_t`, `~MASK n` is `UINT32_MAX ^^^ MASK n`. -/
def get_vpn_by_vaddr_n_level (vaddr : Nat) (level : Int) : Nat :=
  if level = 1 then
    (vaddr &&& (UINT32_MAX ^^^ MASK (RV_PG_SHIFT + 10))) >>> (RV_PG_SHIFT + 10)
  else
    (vaddr &&& (UINT32_MAX ^^^ MASK RV_PG_SHIFT)) >>> RV_PG_SHIFT

/-- The `offset` computed by `get_vpn_and_offset()` in `tlb.c`:
`entry->level == 1 ? vaddr & MASK(RV_PG_SHIFT + 10) : vaddr & MASK(RV_PG_SHIFT)`. -/
def get_offset (vaddr : Nat) (level : Int) : Nat :=
  if level = 1 then vaddr &&& MASK (RV_PG_SHIFT + 10)
  else vaddr &&& MASK RV_PG_SHIFT

/-- The loop body of `tlb_lookup` in `tlb.c`, folded over the entry list in
list order.  Each entry recomputes `vpn`/`offset` with its own `level`; the
hit condition is `entry->vpn == vpn && (entry->access & access)`, then the
nested privilege test: only a `PTE_U` entry queried with `priv_mode == 0`
returns; every other combination falls through to the next entry (the empty
`else` branches under the `FIXME: privilege mode violation` comment). -/
def tlb_lookup_list (l : List tlb_entry_t) (vaddr access priv_mode : Nat) :
    Option Nat :=
  match l with
  | [] => none
  | entry :: rest =>
    let vpn := get_vpn_by_vaddr_n_level vaddr entry.level
    let offset := get_offset vaddr entry.level
    if entry.vpn = vpn ∧ entry.access &&& access ≠ 0 then
      if entry.access &&& PTE_U ≠ 0 then
        if priv_mode = 0 then
          some (entry.ppn ||| offset)
        else
          tlb_lookup_list rest vaddr access priv_mode
      else
        tlb_lookup_list rest vaddr access priv_mode
    else
      tlb_lookup_list rest vaddr access priv_mode

/-- `tlb_lookup` from `tlb.c`: select the set by `type` and scan it; `some`
is `return true` with `*addr` set, `none` is `return false` (the initial
`list_empty` early return coincides with the scan of an empty list). -/
def tlb_lookup (tlb : tlb_t) (type : tlb_type_t) (vaddr access priv_mode : Nat) :
    Option Nat :=
  tlb_lookup_list (tlb.set type).entries vaddr access priv_mode

/-- `tlb_evict` from `tlb.c`, on one set: `assert(!list_empty(tlb_list))`
(modelled as `none`), then remove the FIFO head (`list_first_entry`) and
decrement the `uint32_t` size. -/
def tlb_set_evict (s : tlb_set_t) : Option tlb_set_t :=
  match s.entries with
  | [] => none
  | _first_entry :: rest =>
    some { s with entries := rest, size := (s.size + (2 ^ 32 - 1)) % 2 ^ 32 }

/-- `tlb_evict` from `tlb.c`. -/
def tlb_evict (tlb : tlb_t) (type : tlb_type_t) : Option tlb_t :=
  (tlb_set_evict (tlb.set type)).map (tlb.withSet type)

/-- `_tlb_refill` from `tlb.c`, on one set: `list_add_tail` the new entry and
increment the `uint32_t` size. -/
def tlb_set_refill_entry (s : tlb_set_t) (entry : tlb_entry_t) : tlb_set_t :=
  { s with entries := s.entries ++ [entry], size := (s.size + 1) % 2 ^ 32 }

/-- The entry built by `tlb_refill` in `tlb.c`: `vpn` from
`get_vpn_by_vaddr_n_level(vaddr, level)`, `ppn` and `access` copied,
`level` stored. -/
def tlb_mk_entry (vaddr ppn access : Nat) (level : Int) : tlb_entry_t :=
  { vpn := get_vpn_by_vaddr_n_level vaddr level
    ppn := ppn
    access := access
    level := level }

/-- `tlb_refill` from `tlb.c`, on one set: if `tlb_size == tlb_capacity`,
evict first (whose assertion may fire, modelled by `none`), then build the
new entry and append it. -/
def tlb_set_refill (s : tlb_set_t) (vaddr ppn access : Nat) (level : Int) :
    Option tlb_set_t :=
  let afterEvict := if s.size = s.capacity then tlb_set_evict s else some s
  afterEvict.map (fun s => tlb_set_refill_entry s (tlb_mk_entry vaddr ppn access level))

/-- `tlb_refill` from `tlb.c`. -/
def tlb_refill (tlb : tlb_t) (type : tlb_type_t) (vaddr ppn access : Nat)
    (level : Int) : Option tlb_t :=
  (tlb_set_refill (tlb.set type) vaddr ppn access level).map (tlb.withSet type)

/-- `_tlb_flush` from `tlb.c`, on one set: every entry gets `vpn = -1`
(`UINT32_MAX` as `uint32_t`); the `asid`/`vaddr` branches are all empty
(`TODO: ASID aware`), so the arguments are ignored. -/
def tlb_set_flush (s : tlb_set_t) (_asid _vaddr : Nat) : tlb_set_t :=
  { s with entries := s.entries.map (fun entry => { entry with vpn := UINT32_MAX }) }

/-- `tlb_flush` from `tlb.c`: flush both sets. -/
def tlb_flush (tlb : tlb_t) (asid vaddr : Nat) : tlb_t :=
  { itlb := tlb_set_flush tlb.itlb asid vaddr
    dtlb := tlb_set_flush tlb.dtlb asid vaddr }

/-- `tlb_init` from `tlb.c`, per set: empty list, size 0, given capacity. -/
def tlb_init (tlb_init_capacity : Nat) : tlb_set_t :=
  { entries := [], size := 0, capacity := tlb_init_capacity }

/-- `tlb_new` from `tlb.c`: both sets initialised with the same capacity. -/
def tlb_new (tlb_size : Nat) : tlb_t :=
  { itlb := tlb_init tlb_size, dtlb := tlb_init tlb_size }

/-- A sequence of refills applied to one set, left to right; `none` as soon
as one refill trips the eviction assertion. -/
def tlb_set_refill_list (s : tlb_set_t) :
    List (Nat × Nat × Nat × Int) → Option tlb_set_t
  | [] => some s
  | r :: rs =>
    (tlb_set_refill s r.1 r.2.1 r.2.2.1 r.2.2.2).bind
      (fun s => tlb_set_refill_list s rs)

/-- For a 32-bit virtual address, the computed VPN fits well below
`UINT32_MAX`: both branches shift right by at least `RV_PG_SHIFT = 12`. -/
lemma get_vpn_by_vaddr_n_level_lt (vaddr : Nat) (level : Int)
    (h : vaddr < 2 ^ 32) :
    get_vpn_by_vaddr_n_level vaddr level < UINT32_MAX := by
  have hle12 : ∀ m : Nat, (vaddr &&& m) >>> 12 < UINT32_MAX := by
    intro m
    have h1 : vaddr &&& m ≤ vaddr := Nat.and_le_left
    rw [Nat.shiftRight_eq_div_pow]
    have h2 : vaddr &&& m < UINT32_MAX * 2 ^ 12 := by
      have : (2 : Nat) ^ 32 ≤ UINT32_MAX * 2 ^ 12 := by norm_num [UINT32_MAX]
      omega
    exact Nat.div_lt_of_lt_mul h2
  have hle22 : ∀ m : Nat, (vaddr &&& m) >>> 22 < UINT32_MAX := by
    intro m
    have h1 : vaddr &&& m ≤ vaddr := Nat.and_le_left
    rw [Nat.shiftRight_eq_div_pow]
    have h2 : vaddr &&& m < UINT32_MAX * 2 ^ 22 := by
      have : (2 : Nat) ^ 32 ≤ UINT32_MAX * 2 ^ 22 := by norm_num [UINT32_MAX]
      omega
    exact Nat.div_lt_of_lt_mul h2
  unfold get_vpn_by_vaddr_n_level
  split
  · exact hle22 _
  · exact hle12 _

/-- A list in which every entry carries the flush sentinel `vpn = -1`
(`UINT32_MAX`) never produces a hit for a 32-bit virtual address. -/
lemma tlb_lookup_list_flushed (l : List tlb_entry_t) (vaddr access priv : Nat)
    (hv : vaddr < 2 ^ 32) (hl : ∀ e ∈ l, e.vpn = UINT32_MAX) :
    tlb_lookup_list l vaddr access priv = none := by
  induction l with
  | nil => rfl
  | cons e rest ih =>
    have he : e.vpn = UINT32_MAX := hl e (by simp)
    simp only [tlb_lookup_list]
    rw [if_neg]
    · exact ih (fun x hx => hl x (by simp [hx]))
    · rintro ⟨h1, -⟩
      have := get_vpn_by_vaddr_n_level_lt vaddr e.level hv
      omega

/-- One refill on a full, non-empty set: evict the FIFO head, append the new
entry; the `uint32_t` size round-trips through the decrement and increment. -/
lemma tlb_set_refill_eq_full (e : tlb_entry_t) (es : List tlb_entry_t)
    (size cap : Nat) (v p a : Nat) (l : Int) (hfull : size = cap)
    (h1 : 1 ≤ size) (h2 : size < 2 ^ 32) :
    tlb_set_refill ⟨e :: es, size, cap⟩ v p a l =
      some ⟨es ++ [tlb_mk_entry v p a l], size, cap⟩ := by
  subst hfull
  have hsize : ((size + (2 ^ 32 - 1)) % 2 ^ 32 + 1) % 2 ^ 32 = size := by omega
  simp only [tlb_set_refill, tlb_set_evict, tlb_set_refill_entry, if_pos,
    Option.map_some', hsize]

/-- One refill on a set that is not at capacity: append the new entry and
increment the size. -/
lemma tlb_set_refill_eq_notfull (entries : List tlb_entry_t)
    (size cap : Nat) (v p a : Nat) (l : Int) (hne : size ≠ cap)
    (h2 : size + 1 < 2 ^ 32) :
    tlb_set_refill ⟨entries, size, cap⟩ v p a l =
      some ⟨entries ++ [tlb_mk_entry v p a l], size + 1, cap⟩ := by
  have hsize : (size + 1) % 2 ^ 32 = size + 1 := Nat.mod_eq_of_lt h2
  simp only [tlb_set_refill, tlb_set_refill_entry, if_neg hne,
    Option.map_some', hsize]

/-- FIFO behaviour of a whole refill sequence: from a well-formed set with a
positive, representable capacity every refill succeeds, the invariants are
preserved, and the surviving entries are the tail of the concatenated
stream that fits in the capacity. -/
lemma tlb_set_refill_list_fifo (rs : List (Nat × Nat × Nat × Int)) :
    ∀ s : tlb_set_t, 0 < s.capacity → s.capacity < 2 ^ 32 →
    s.size = s.entries.length → s.size ≤ s.capacity →
    ∃ s', tlb_set_refill_list s rs = some s' ∧
      s'.capacity = s.capacity ∧ s'.size = s'.entries.length ∧
      s'.size ≤ s.capacity ∧
      s'.entries =
        (s.entries ++ rs.map (fun r => tlb_mk_entry r.1 r.2.1 r.2.2.1 r.2.2.2)).drop
          (s.entries.length + rs.length - s.capacity) := by
  induction rs with
  | nil =>
    intro s hpos hbound hlen hle
    refine ⟨s, rfl, rfl, hlen, hle, ?_⟩
    simp only [List.map_nil, List.append_nil, List.length_nil, Nat.add_zero]
    rw [show s.entries.length - s.capacity = 0 from by omega, List.drop_zero]
  | cons r rs ih =>
    intro s hpos hbound hlen hle
    obtain ⟨entries, size, cap⟩ := s
    obtain ⟨v, p, a, l⟩ := r
    dsimp only at hpos hbound hlen hle ⊢
    by_cases hfull : size = cap
    · cases entries with
      | nil =>
        exfalso
        simp only [List.length_nil] at hlen
        omega
      | cons e es =>
        simp only [List.length_cons] at hlen
        have hstep := tlb_set_refill_eq_full e es size cap v p a l hfull
          (by omega) (by omega)
        obtain ⟨s', hs', hcap, hslen, hsle, hentries⟩ :=
          ih ⟨es ++ [tlb_mk_entry v p a l], size, cap⟩ hpos hbound
            (by simp only [List.length_append, List.length_cons,
                  List.length_nil]; omega)
            (Nat.le_of_eq hfull)
        refine ⟨s', ?_, hcap, hslen, hsle, ?_⟩
        · simp only [tlb_set_refill_list]
          rw [hstep, Option.some_bind]
          exact hs'
        · rw [hentries]
          simp only [List.map_cons, List.cons_append, List.append_assoc,
            List.singleton_append, List.nil_append, List.length_append,
            List.length_cons, List.length_nil, List.length_map]
          rw [show es.length + (0 + 1) + rs.length - cap = rs.length from
                by omega,
            show es.length + 1 + (rs.length + 1) - cap = rs.length + 1 from
                by omega,
            List.drop_succ_cons]
    · have hstep := tlb_set_refill_eq_notfull entries size cap v p a l hfull
        (by omega)
      obtain ⟨s', hs', hcap, hslen, hsle, hentries⟩ :=
        ih ⟨entries ++ [tlb_mk_entry v p a l], size + 1, cap⟩ hpos hbound
          (by simp only [List.length_append, List.length_cons,
                List.length_nil]; omega)
          (show size + 1 ≤ cap by omega)
      refine ⟨s', ?_, hcap, hslen, hsle, ?_⟩
      · simp only [tlb_set_refill_list]
        rw [hstep, Option.some_bind]
        exact hs'
      · rw [hentries]
        simp only [List.map_cons, List.cons_append, List.append_assoc,
          List.singleton_append, List.nil_append, List.length_append,
          List.length_cons, List.length_nil, List.length_map]
        congr 1
        omega

/-- Splitting a refill sequence at any point. -/
lemma tlb_set_refill_list_append (rs₁ rs₂ : List (Nat × Nat × Nat × Int)) :
    ∀ s : tlb_set_t, tlb_set_refill_list s (rs₁ ++ rs₂) =
      (tlb_set_refill_list s rs₁).bind (fun s => tlb_set_refill_list s rs₂) := by
  induction rs₁ with
  | nil => intro s; rfl
  | cons r rs ih =>
    intro s
    simp only [List.cons_append, tlb_set_refill_list]
    cases tlb_set_refill s r.1 r.2.1 r.2.2.1 r.2.2.2 with
    | none => rfl
    | some s₁ => exact ih s₁

/-- One successful refill preserves well-formedness of a set. -/
lemma tlb_set_refill_wf (s s₁ : tlb_set_t) (v p a : Nat) (l : Int)
    (h : tlb_set_refill s v p a l = some s₁)
    (hlen : s.size = s.entries.length) (hle : s.size ≤ s.capacity)
    (hbound : s.capacity < 2 ^ 32) :
    s₁.size = s₁.entries.length ∧ s₁.size ≤ s₁.capacity ∧
      s₁.capacity = s.capacity := by
  obtain ⟨entries, size, cap⟩ := s
  dsimp only at hlen hle hbound h ⊢
  by_cases hfull : size = cap
  · cases entries with
    | nil =>
      simp only [List.length_nil] at hlen
      subst hlen
      subst hfull
      exact Option.noConfusion h
    | cons e es =>
      simp only [List.length_cons] at hlen
      rw [tlb_set_refill_eq_full e es size cap v p a l hfull (by omega)
        (by omega)] at h
      injection h with h
      subst h
      refine ⟨?_, Nat.le_of_eq hfull, rfl⟩
      simp only [List.length_append, List.length_cons, List.length_nil]
      omega
  · rw [tlb_set_refill_eq_notfull entries size cap v p a l hfull
      (by omega)] at h
    injection h with h
    subst h
    refine ⟨?_, show size + 1 ≤ cap by omega, rfl⟩
    show size + 1 = (entries ++ [tlb_mk_entry v p a l]).length
    simp only [List.length_append, List.length_cons, List.length_nil]
    omega

/-- A successful refill sequence preserves well-formedness of a set. -/
lemma tlb_set_refill_list_wf (rs : List (Nat × Nat × Nat × Int)) :
    ∀ s s₁ : tlb_set_t, tlb_set_refill_list s rs = some s₁ →
    s.size = s.entries.length → s.size ≤ s.capacity → s.capacity < 2 ^ 32 →
    s₁.size = s₁.entries.length ∧ s₁.size ≤ s₁.capacity ∧
      s₁.capacity = s.capacity := by
  induction rs with
  | nil =>
    intro s s₁ h hlen hle hb
    injection h with h
    subst h
    exact ⟨hlen, hle, rfl⟩
  | cons r rs ih =>
    intro s s₁ h hlen hle hb
    cases hstep : tlb_set_refill s r.1 r.2.1 r.2.2.1 r.2.2.2 with
    | none =>
      simp only [tlb_set_refill_list] at h
      rw [hstep, Option.none_bind] at h
      exact Option.noConfusion h
    | some s₂ =>
      simp only [tlb_set_refill_list] at h
      rw [hstep, Option.some_bind] at h
      obtain ⟨h1, h2, h3⟩ := tlb_set_refill_wf s s₂ _ _ _ _ hstep hlen hle hb
      have hrest := ih s₂ s₁ h h1 h2 (h3 ▸ hb)
      exact ⟨hrest.1, hrest.2.1, hrest.2.2.trans h3⟩

/-- C1: the code never hits on an entry whose `PTE_U` bit is clear — the
supervisor branch of the privilege check is an empty `else` (the code's own
`FIXME: privilege mode violation`).  At the failing input, a supervisor-only
entry (rights = read, `PTE_U` clear) queried from supervisor mode with
matching VPN and rights misses, while the spec says it must hit; the
user-page half of the check does work, as the second conjunct shows. -/
theorem C1_supervisor_entry_never_hits :
    tlb_lookup_list [tlb_mk_entry 0x1000 0xA000 2 0] 0x1000 2 1 = none ∧
    tlb_lookup_list [tlb_mk_entry 0x1000 0xA000 (2 + PTE_U) 0] 0x1000 2 0 =
      some 0xA000 := by
  constructor <;> decide

/-- C2: hit correctness at level 0 fails on the code for a non-user entry.
After `refill(va = 0x1000, ppn = 0xA000, rights = read (PTE_U clear),
level = 0)`, the matching-privilege lookup (supervisor mode, access = read)
returns miss instead of the claimed `ppn | (va & 0xFFF) = 0xA000`. -/
theorem C2_nonuser_hit_fails :
    (tlb_refill (tlb_new 4) .iTLB 0x1000 0xA000 2 0).map
        (fun t => tlb_lookup t .iTLB 0x1000 2 1) = some none := by
  decide

/-- C7: superpage masking fails on the code for a non-user entry.  After
`refill(va = 0x00400000, ppn = 0x00C00000, rights = read (PTE_U clear),
level = 1)`, a supervisor-mode lookup of 0x00400123 (same high 10 bits)
returns miss instead of the claimed `ppn | (va & 0x3FFFFF) = 0x00C00123`;
with `PTE_U` set and a user-mode lookup the superpage split itself does
work, as the second conjunct shows. -/
theorem C7_superpage_supervisor_miss :
    (tlb_refill (tlb_new 4) .iTLB 0x00400000 0x00C00000 2 1).map
        (fun t => tlb_lookup t .iTLB 0x00400123 2 1) = some none ∧
    (tlb_refill (tlb_new 4) .iTLB 0x00400000 0x00C00000 (2 + PTE_U) 1).map
        (fun t => tlb_lookup t .iTLB 0x00400123 2 0) = some (some 0x00C00123) := by
  constructor <;> decide

/-- C3: privilege isolation, miss directions.  In every TLB state, an entry
whose `PTE_U` bit is clear contributes nothing to a user-mode
(`priv_mode = 0`) lookup, and an entry whose `PTE_U` bit is set contributes
nothing to a supervisor-mode (`priv_mode ≠ 0`) lookup: deleting the entry
from the scanned list leaves the lookup result unchanged, whatever the
address and rights. -/
theorem C3_privilege_isolation (l₁ l₂ : List tlb_entry_t) (e : tlb_entry_t)
    (vaddr access priv_mode : Nat)
    (h : (e.access &&& PTE_U = 0 ∧ priv_mode = 0) ∨
         (e.access &&& PTE_U ≠ 0 ∧ priv_mode ≠ 0)) :
    tlb_lookup_list (l₁ ++ e :: l₂) vaddr access priv_mode =
      tlb_lookup_list (l₁ ++ l₂) vaddr access priv_mode := by
  induction l₁ with
  | nil =>
    simp only [List.nil_append, tlb_lookup_list]
    split
    · split
      · split
        · rcases h with ⟨hU, _⟩ | ⟨_, hp⟩
          · exact absurd hU (by assumption)
          · exact absurd (by assumption) hp
        · rfl
      · rfl
    · rfl
  | cons a l₁ ih =>
    simp only [List.cons_append, tlb_lookup_list]
    split
    · split
      · split
        · rfl
        · exact ih
      · exact ih
    · exact ih

theorem C3_privilege_isolation_witness :
    tlb_lookup_list [⟨1, 0xA000, 2, 0⟩] 0x1000 2 0 =
      tlb_lookup_list [] 0x1000 2 0 :=
  C3_privilege_isolation [] [] ⟨1, 0xA000, 2, 0⟩ 0x1000 2 0 (Or.inl (by decide))

/-- C9: on a set whose size field tracks its entry count, evicting with
`size > 0` removes exactly the FIFO head and decrements the size (the
non-empty assertion cannot fire), and evicting an empty set trips the
assertion (modelled as `none`), not a silent no-op. -/
theorem C9_evict_contract (s : tlb_set_t) (hlen : s.size = s.entries.length)
    (hbound : s.size < 2 ^ 32) :
    (0 < s.size →
      tlb_set_evict s =
        some { entries := s.entries.tail, size := s.size - 1,
               capacity := s.capacity }) ∧
    (s.entries = [] → tlb_set_evict s = none) := by
  obtain ⟨entries, size, capacity⟩ := s
  dsimp only at hlen hbound
  cases entries with
  | nil =>
    simp only [List.length_nil] at hlen
    subst hlen
    exact ⟨fun h => absurd h (Nat.lt_irrefl 0), fun _ => rfl⟩
  | cons e rest =>
    refine ⟨fun h => ?_, fun h => by cases h⟩
    dsimp only at h ⊢
    simp only [tlb_set_evict, List.tail_cons]
    have heq : size + (2 ^ 32 - 1) = (size - 1) + 2 ^ 32 := by omega
    rw [heq, Nat.add_mod_right, Nat.mod_eq_of_lt (by omega)]

theorem C9_evict_contract_witness :
    tlb_set_evict ⟨[⟨1, 2, 3, 0⟩], 1, 4⟩ = some ⟨[], 0, 4⟩ :=
  (C9_evict_contract ⟨[⟨1, 2, 3, 0⟩], 1, 4⟩ (by decide) (by decide)).1 (by decide)

/-- C10: a TLB created with capacity 0 reaches the evict contract violation
on the very first refill of either set: size equals capacity immediately,
so `tlb_refill` calls `tlb_evict` on an empty set and the non-empty
assertion fires (modelled as `none`), whatever the refill arguments. -/
theorem C10_capacity_zero_refill_asserts (type : tlb_type_t)
    (vaddr ppn access : Nat) (level : Int) :
    tlb_refill (tlb_new 0) type vaddr ppn access level = none ∧
    ((tlb_new 0).set type).size = ((tlb_new 0).set type).capacity ∧
    tlb_set_evict ((tlb_new 0).set type) = none := by
  cases type <;>
    exact ⟨rfl, rfl, rfl⟩

/-- C4: flushing invalidates everything.  After `tlb_flush` with any
`(asid, vaddr)` arguments, every lookup on either set with any 32-bit
address, access and privilege misses (so previously cached addresses miss
until refilled), and the flushed state does not depend on the `asid` and
`vaddr` arguments at all. -/
theorem C4_flush_clears_all (tlb : tlb_t) (type : tlb_type_t)
    (asid vaddr asid' vaddr' v a p : Nat) (hv : v < 2 ^ 32) :
    tlb_lookup (tlb_flush tlb asid vaddr) type v a p = none ∧
    tlb_flush tlb asid vaddr = tlb_flush tlb asid' vaddr' := by
  refine ⟨?_, rfl⟩
  apply tlb_lookup_list_flushed _ _ _ _ hv
  cases type <;>
  · intro e he
    simp only [tlb_flush, tlb_t.set, tlb_set_flush, List.mem_map] at he
    obtain ⟨x, -, hx⟩ := he
    rw [← hx]

theorem C4_flush_clears_all_witness :
    tlb_lookup
        (tlb_flush ⟨⟨[⟨1, 0xA000, 18, 0⟩], 1, 4⟩, ⟨[], 0, 4⟩⟩ 7 9) .iTLB
        0x1000 2 0 = none ∧
    tlb_flush ⟨⟨[⟨1, 0xA000, 18, 0⟩], 1, 4⟩, ⟨[], 0, 4⟩⟩ 7 9 =
      tlb_flush ⟨⟨[⟨1, 0xA000, 18, 0⟩], 1, 4⟩, ⟨[], 0, 4⟩⟩ 0 0 :=
  C4_flush_clears_all ⟨⟨[⟨1, 0xA000, 18, 0⟩], 1, 4⟩, ⟨[], 0, 4⟩⟩ .iTLB
    7 9 0 0 0x1000 2 0 (by omega)

/-- Updating the instruction set leaves the data set untouched. -/
lemma map_withSet_iTLB_dtlb (tlb t' : tlb_t) (o : Option tlb_set_t)
    (h : o.map (tlb.withSet .iTLB) = some t') : t'.dtlb = tlb.dtlb := by
  cases o with
  | none => exact Option.noConfusion h
  | some s =>
    simp only [Option.map_some', Option.some.injEq] at h
    rw [← h]
    rfl

/-- Updating the data set leaves the instruction set untouched. -/
lemma map_withSet_dTLB_itlb (tlb t' : tlb_t) (o : Option tlb_set_t)
    (h : o.map (tlb.withSet .dTLB) = some t') : t'.itlb = tlb.itlb := by
  cases o with
  | none => exact Option.noConfusion h
  | some s =>
    simp only [Option.map_some', Option.some.injEq] at h
    rw [← h]
    rfl

/-- C8: the two translation sets are independent.  A refill or an evict
applied to the instruction set leaves every data-set lookup unchanged, and
a refill or an evict applied to the data set leaves every instruction-set
lookup unchanged. -/
theorem C8_independent_sets (tlb t₁ t₂ t₃ t₄ : tlb_t)
    (vaddr ppn access : Nat) (level : Int) (v a p : Nat) :
    (tlb_refill tlb .iTLB vaddr ppn access level = some t₁ →
      tlb_lookup t₁ .dTLB v a p = tlb_lookup tlb .dTLB v a p) ∧
    (tlb_evict tlb .iTLB = some t₂ →
      tlb_lookup t₂ .dTLB v a p = tlb_lookup tlb .dTLB v a p) ∧
    (tlb_refill tlb .dTLB vaddr ppn access level = some t₃ →
      tlb_lookup t₃ .iTLB v a p = tlb_lookup tlb .iTLB v a p) ∧
    (tlb_evict tlb .dTLB = some t₄ →
      tlb_lookup t₄ .iTLB v a p = tlb_lookup tlb .iTLB v a p) := by
  refine ⟨fun h => ?_, fun h => ?_, fun h => ?_, fun h => ?_⟩
  · have hd := map_withSet_iTLB_dtlb tlb t₁ _ h
    show tlb_lookup_list t₁.dtlb.entries v a p = tlb_lookup_list tlb.dtlb.entries v a p
    rw [hd]
  · have hd := map_withSet_iTLB_dtlb tlb t₂ _ h
    show tlb_lookup_list t₂.dtlb.entries v a p = tlb_lookup_list tlb.dtlb.entries v a p
    rw [hd]
  · have hd := map_withSet_dTLB_itlb tlb t₃ _ h
    show tlb_lookup_list t₃.itlb.entries v a p = tlb_lookup_list tlb.itlb.entries v a p
    rw [hd]
  · have hd := map_withSet_dTLB_itlb tlb t₄ _ h
    show tlb_lookup_list t₄.itlb.entries v a p = tlb_lookup_list tlb.itlb.entries v a p
    rw [hd]

theorem C8_independent_sets_witness :
    (tlb_lookup ⟨⟨[⟨1, 2, 18, 0⟩, ⟨3, 4, 18, 0⟩], 2, 4⟩, ⟨[⟨1, 0xA000, 18, 0⟩], 1, 4⟩⟩
        .dTLB 0x1000 2 0 =
      tlb_lookup ⟨⟨[⟨1, 2, 18, 0⟩], 1, 4⟩, ⟨[⟨1, 0xA000, 18, 0⟩], 1, 4⟩⟩
        .dTLB 0x1000 2 0) ∧
    (tlb_lookup ⟨⟨[], 0, 4⟩, ⟨[⟨1, 0xA000, 18, 0⟩], 1, 4⟩⟩ .dTLB 0x1000 2 0 =
      tlb_lookup ⟨⟨[⟨1, 2, 18, 0⟩], 1, 4⟩, ⟨[⟨1, 0xA000, 18, 0⟩], 1, 4⟩⟩
        .dTLB 0x1000 2 0) ∧
    (tlb_lookup ⟨⟨[⟨1, 2, 18, 0⟩], 1, 4⟩, ⟨[⟨1, 0xA000, 18, 0⟩, ⟨3, 4, 18, 0⟩], 2, 4⟩⟩
        .iTLB 0x1000 2 0 =
      tlb_lookup ⟨⟨[⟨1, 2, 18, 0⟩], 1, 4⟩, ⟨[⟨1, 0xA000, 18, 0⟩], 1, 4⟩⟩
        .iTLB 0x1000 2 0) ∧
    (tlb_lookup ⟨⟨[⟨1, 2, 18, 0⟩], 1, 4⟩, ⟨[], 0, 4⟩⟩ .iTLB 0x1000 2 0 =
      tlb_lookup ⟨⟨[⟨1, 2, 18, 0⟩], 1, 4⟩, ⟨[⟨1, 0xA000, 18, 0⟩], 1, 4⟩⟩
        .iTLB 0x1000 2 0) :=
  have h := C8_independent_sets
    ⟨⟨[⟨1, 2, 18, 0⟩], 1, 4⟩, ⟨[⟨1, 0xA000, 18, 0⟩], 1, 4⟩⟩
    ⟨⟨[⟨1, 2, 18, 0⟩, ⟨3, 4, 18, 0⟩], 2, 4⟩, ⟨[⟨1, 0xA000, 18, 0⟩], 1, 4⟩⟩
    ⟨⟨[], 0, 4⟩, ⟨[⟨1, 0xA000, 18, 0⟩], 1, 4⟩⟩
    ⟨⟨[⟨1, 2, 18, 0⟩], 1, 4⟩, ⟨[⟨1, 0xA000, 18, 0⟩, ⟨3, 4, 18, 0⟩], 2, 4⟩⟩
    ⟨⟨[⟨1, 2, 18, 0⟩], 1, 4⟩, ⟨[], 0, 4⟩⟩
    0x3000 4 18 0 0x1000 2 0
  ⟨h.1 (by decide), h.2.1 (by decide), h.2.2.1 (by decide), h.2.2.2 (by decide)⟩

/-- C5: FIFO eviction order.  Refilling k entries (k > C) into an empty set
of positive capacity C leaves exactly the last C refilled entries present,
in insertion order, with the earlier ones evicted. -/
theorem C5_fifo_eviction_order (C : Nat) (rs : List (Nat × Nat × Nat × Int))
    (hpos : 0 < C) (hbound : C < 2 ^ 32) (hk : C < rs.length) :
    ∃ s', tlb_set_refill_list (tlb_init C) rs = some s' ∧
      s'.entries = (rs.drop (rs.length - C)).map
        (fun r => tlb_mk_entry r.1 r.2.1 r.2.2.1 r.2.2.2) ∧
      s'.size = C := by
  obtain ⟨s', h1, hcap, hslen, hsle, hentries⟩ :=
    tlb_set_refill_list_fifo rs (tlb_init C) hpos hbound rfl (Nat.zero_le C)
  refine ⟨s', h1, ?_, ?_⟩
  · rw [hentries]
    simp only [tlb_init, List.nil_append, List.length_nil, Nat.zero_add,
      List.map_drop]
  · have hlen' := congrArg List.length hentries
    simp only [tlb_init, List.nil_append, List.length_nil, Nat.zero_add,
      List.length_drop, List.length_map] at hlen'
    omega

theorem C5_fifo_eviction_order_witness :
    ∃ s', tlb_set_refill_list (tlb_init 2)
        [(0x1000, 0xA000, 18, 0), (0x2000, 0xB000, 18, 0),
         (0x3000, 0xC000, 18, 0)] = some s' ∧
      s'.entries = ([(0x1000, 0xA000, 18, 0), (0x2000, 0xB000, 18, 0),
          (0x3000, 0xC000, 18, 0)].drop
            ([(0x1000, 0xA000, 18, (0 : Int)), (0x2000, 0xB000, 18, 0),
              (0x3000, 0xC000, 18, 0)].length - 2)).map
        (fun r => tlb_mk_entry r.1 r.2.1 r.2.2.1 r.2.2.2) ∧
      s'.size = 2 :=
  C5_fifo_eviction_order 2
    [(0x1000, 0xA000, 18, 0), (0x2000, 0xB000, 18, 0), (0x3000, 0xC000, 18, 0)]
    (by omega) (by omega) (by decide)

/-- C6: capacity invariant.  For every refill sequence applied to a set
created empty with a fixed `uint32_t` capacity, every successfully reached
intermediate state satisfies `size ≤ capacity`; and a refill issued when
`size = capacity` on a well-formed set performs exactly one eviction (the
FIFO head is dropped) before inserting the new entry, leaving the size
unchanged. -/
theorem C6_capacity_invariant (C : Nat) (rs₁ rs₂ : List (Nat × Nat × Nat × Int))
    (s' : tlb_set_t) (hbound : C < 2 ^ 32)
    (h : tlb_set_refill_list (tlb_init C) (rs₁ ++ rs₂) = some s') :
    (∃ s₁, tlb_set_refill_list (tlb_init C) rs₁ = some s₁ ∧ s₁.size ≤ C) ∧
    (∀ (s : tlb_set_t) (vaddr ppn access : Nat) (level : Int),
      s.size = s.capacity → s.size = s.entries.length → 0 < s.size →
      s.size < 2 ^ 32 →
      tlb_set_refill s vaddr ppn access level =
        some { entries := s.entries.tail ++ [tlb_mk_entry vaddr ppn access level],
               size := s.size, capacity := s.capacity }) := by
  constructor
  · rw [tlb_set_refill_list_append] at h
    cases hs₁ : tlb_set_refill_list (tlb_init C) rs₁ with
    | none =>
      rw [hs₁, Option.none_bind] at h
      exact Option.noConfusion h
    | some s₁ =>
      obtain ⟨-, h2, h3⟩ :=
        tlb_set_refill_list_wf rs₁ (tlb_init C) s₁ hs₁ rfl (Nat.zero_le C)
          hbound
      exact ⟨s₁, rfl, by rw [h3] at h2; exact h2⟩
  · intro s vaddr ppn access level hfull hlen hposs hsz
    obtain ⟨entries, size, cap⟩ := s
    dsimp only at hfull hlen hposs hsz ⊢
    cases entries with
    | nil =>
      simp only [List.length_nil] at hlen
      omega
    | cons e es =>
      rw [tlb_set_refill_eq_full e es size cap vaddr ppn access level hfull
        (by omega) hsz, List.tail_cons]

theorem C6_capacity_invariant_witness :
    (∃ s₁, tlb_set_refill_list (tlb_init 1) [(0x1000, 0xA000, 18, 0)] =
        some s₁ ∧ s₁.size ≤ 1) ∧
    (∀ (s : tlb_set_t) (vaddr ppn access : Nat) (level : Int),
      s.size = s.capacity → s.size = s.entries.length → 0 < s.size →
      s.size < 2 ^ 32 →
      tlb_set_refill s vaddr ppn access level =
        some { entries := s.entries.tail ++ [tlb_mk_entry vaddr ppn access level],
               size := s.size, capacity := s.capacity }) :=
  C6_capacity_invariant 1 [(0x1000, 0xA000, 18, 0)] []
    ⟨[tlb_mk_entry 0x1000 0xA000 18 0], 1, 1⟩ (by omega) (by decide)
